import Mathlib

/-!
Verification of the node/file mapping engine of the atscm repository.

The definitions below are a shallow embedding of `src/lib/server/AtviseFile.js`,
`src/tasks/push.js` (the `WatchTask` change handlers) and the transformer
pipeline.  JavaScript strings and `Buffer`s are modelled as Lean `String`s
(a buffer holds its byte content; all contents in the verified scenarios are
ASCII), JavaScript numbers appearing as integers are modelled as `Int`/`Nat`,
`Date` objects as their epoch-millisecond value, and a nullable/throwing
JavaScript computation as an `Option` (`none` models an exception or an
absent value, as noted at each definition).

Code of the repository that is not part of the provided sources
(`NodeId.js`, `Types.js`, `Transformer.js`) is modelled from the
specification; each such definition carries a doc comment starting with
`Modelled from the spec:`.
-/

namespace Atscm

/-! ## Character and decimal-number utilities

`Number.prototype.toString` (for integral values) and `Number.parseInt`
are modelled by an explicit decimal printer and parser. -/

/-- The decimal digit character for a value below ten (it is only ever
applied to `n % 10`). -/
def digitChar (n : Nat) : Char :=
  Char.ofNat (48 + n)

/-- The value of a decimal digit character, `none` for a non-digit. -/
def digitVal (c : Char) : Option Nat :=
  if '0' ≤ c ∧ c ≤ '9' then some (c.toNat - 48) else none

/-- The decimal digits of a natural number, least-significant first. -/
def natDigitsRev (n : Nat) : List Nat :=
  if h : n < 10 then [n]
  else n % 10 :: natDigitsRev (n / 10)
decreasing_by exact Nat.div_lt_self (by omega) (by omega)

/-- Decimal representation of a natural number (JavaScript
`Number.prototype.toString` restricted to nonnegative integers). -/
def natToDecimal (n : Nat) : String :=
  String.mk ((natDigitsRev n).reverse.map digitChar)

/-- Decimal representation of an integer (JavaScript
`Number.prototype.toString` restricted to integral values). -/
def intToDecimal (i : Int) : String :=
  if i < 0 then "-" ++ natToDecimal i.natAbs else natToDecimal i.natAbs

/-- Greedily consume leading decimal digits, returning their values and the
rest of the input. -/
def takeDigits : List Char → List Nat × List Char
  | [] => ([], [])
  | c :: cs =>
    match digitVal c with
    | some d => ((d :: (takeDigits cs).1), (takeDigits cs).2)
    | none => ([], c :: cs)

/-- Combine decimal digit values (most-significant first) into a number. -/
def digitsToNat (ds : List Nat) : Nat :=
  ds.foldl (fun a d => a * 10 + d) 0

/-- ASCII whitespace test (the subset of the whitespace accepted by
JavaScript `parseInt`/`String.prototype.trim` that occurs in the verified
scenarios). -/
def jsIsWhitespace (c : Char) : Bool :=
  c == ' ' || c == '\t' || c == '\n' || c == '\r'

/-- The digit-prefix part of `parseInt` after sign handling: `none` when no
digit is present. -/
def jsParseIntCore (l : List Char) (neg : Bool) : Option Int :=
  match takeDigits l with
  | ([], _) => none
  | (ds, _) => some (if neg then -(digitsToNat ds : Int) else (digitsToNat ds : Int))

/-- JavaScript `Number.parseInt(s, 10)`: skip whitespace, accept an optional
sign, then the longest digit prefix; `none` models the `NaN` result used by
the caller to build an invalid `Date`. -/
def jsParseInt (s : String) : Option Int :=
  match s.data.dropWhile jsIsWhitespace with
  | '-' :: r => jsParseIntCore r true
  | '+' :: r => jsParseIntCore r false
  | r => jsParseIntCore r false

/-- JavaScript `String.prototype.trim` (ASCII whitespace). -/
def jsTrim (s : String) : String :=
  String.mk (((s.data.dropWhile jsIsWhitespace).reverse.dropWhile jsIsWhitespace).reverse)

/-- JavaScript `String.prototype.toLowerCase` (ASCII). -/
def jsToLowerCase (s : String) : String :=
  String.mk (s.data.map Char.toLower)

/-! ## JSON for arrays of nonnegative integers

`JSON.stringify`/`JSON.parse` are applied by the source only to the
two-component `UInt64`/`Int64` arrays (nonnegative 32-bit components), so
they are modelled on the sublanguage of arrays of nonnegative integers;
any other JSON input is modelled as a parse failure. -/

/-- The characters between the brackets of `JSON.stringify` of a number
array. -/
def jsonInner : List Nat → List Char
  | [] => []
  | [x] => (natDigitsRev x).reverse.map digitChar
  | x :: y :: r => (natDigitsRev x).reverse.map digitChar ++ ',' :: jsonInner (y :: r)

/-- `JSON.stringify` of an array of nonnegative integers. -/
def jsonStringifyNats (xs : List Nat) : String :=
  String.mk ('[' :: jsonInner xs ++ [']'])

/-- Parse a comma-separated digit-group list terminated by a closing
bracket. -/
def parseItems (l : List Char) : Option (List Nat) :=
  match h : takeDigits l with
  | ([], _) => none
  | (d :: ds, r) =>
    match r with
    | [']'] => some [digitsToNat (d :: ds)]
    | ',' :: r2 => (parseItems r2).map (fun xs => digitsToNat (d :: ds) :: xs)
    | _ => none
termination_by l.length
decreasing_by
  have hlen : ∀ l2 : List Char, (takeDigits l2).2.length ≤ l2.length := by
    intro l2
    induction l2 with
    | nil => simp [takeDigits]
    | cons c cs ih =>
      simp only [takeDigits]
      cases digitVal c with
      | some d => simpa using Nat.le_succ_of_le ih
      | none => simp
  have h2 : (takeDigits l).2 = ',' :: r2 := by rw [h]
  have := hlen l
  rw [h2] at this
  simp at this
  omega

/-- `JSON.parse` restricted to arrays of nonnegative integers. -/
def jsonParseNats (s : String) : Option (List Nat) :=
  match s.data with
  | '[' :: r =>
    match r with
    | [']'] => some []
    | r2 => parseItems r2
  | _ => none

/-! ## List/path utilities (used to model the path regular expressions) -/

/-- Split a character list on a separator character, `String.prototype.split`
style (keeps empty fields, always nonempty result). -/
def splitOnChar (c : Char) : List Char → List (List Char)
  | [] => [[]]
  | x :: xs =>
    match splitOnChar c xs with
    | [] => [[]]
    | s :: rest => if x = c then [] :: s :: rest else (x :: s) :: rest

/-- The suffix after the last occurrence of a character (the whole list when
the character does not occur): the last path segment for the separator
`/`. -/
def lastSegAfterChar (c : Char) (l : List Char) : List Char :=
  (l.reverse.takeWhile (fun x => x != c)).reverse

/-- Everything after the first occurrence of a character, `none` when it
does not occur: models the `\.([^/\\]*)$` extension regular expression
applied to the last path segment. -/
def afterFirstChar (c : Char) : List Char → Option (List Char)
  | [] => none
  | x :: xs => if x = c then some xs else afterFirstChar c xs

/-- Does `s` start with the given character sequence? -/
def startsWithChars : List Char → List Char → Bool
  | [], _ => true
  | _ :: _, [] => false
  | a :: as, b :: bs => a == b && startsWithChars as bs

/-- The prefix of a list before the first occurrence of a character
sequence (the whole list when it does not occur): JavaScript
`s.split(sub)[0]`. -/
def splitHeadChars (sub : List Char) : List Char → List Char
  | [] => []
  | x :: xs => if startsWithChars sub (x :: xs) then [] else x :: splitHeadChars sub xs

/-- The characters of a path before its last `/` (Node `path.dirname` for
the slash-containing paths that occur here). -/
def beforeLastSlash (l : List Char) : List Char :=
  ((l.reverse.dropWhile (fun x => x != '/')).tail).reverse

/-- Node `path.dirname`, for forward-slash paths. -/
def dirnameOf (p : String) : String :=
  if '/' ∈ p.data then String.mk (beforeLastSlash p.data) else "."

/-! ## The OPC-UA data model (node-opcua interface)

`DataType` and `VariantArrayType` are the node-opcua enumerations the
source iterates over (`Object.keys(DataType)`), in enumeration order. -/

/-- The node-opcua `DataType` enumeration. -/
inductive DataType where
  | Null | Boolean | SByte | Byte | Int16 | UInt16 | Int32 | UInt32
  | Int64 | UInt64 | Float | Double | String | DateTime | Guid | ByteString
  | XmlElement | NodeId | ExpandedNodeId | StatusCode | QualifiedName
  | LocalizedText | ExtensionObject | DataValue | Variant | DiagnosticInfo
deriving DecidableEq, Repr

/-- The node-opcua `VariantArrayType` enumeration. -/
inductive VariantArrayType where
  | Scalar | Array | Matrix
deriving DecidableEq, Repr

/-- All data types in enumeration order (`Object.keys(DataType)` as
values). -/
def dataTypesList : List DataType :=
  [.Null, .Boolean, .SByte, .Byte, .Int16, .UInt16, .Int32, .UInt32,
   .Int64, .UInt64, .Float, .Double, .String, .DateTime, .Guid, .ByteString,
   .XmlElement, .NodeId, .ExpandedNodeId, .StatusCode, .QualifiedName,
   .LocalizedText, .ExtensionObject, .DataValue, .Variant, .DiagnosticInfo]

/-- The enumeration key of a data type (`dataType.toString()`). -/
def dataTypeName : DataType → String
  | .Null => "Null" | .Boolean => "Boolean" | .SByte => "SByte" | .Byte => "Byte"
  | .Int16 => "Int16" | .UInt16 => "UInt16" | .Int32 => "Int32" | .UInt32 => "UInt32"
  | .Int64 => "Int64" | .UInt64 => "UInt64" | .Float => "Float" | .Double => "Double"
  | .String => "String" | .DateTime => "DateTime" | .Guid => "Guid"
  | .ByteString => "ByteString" | .XmlElement => "XmlElement" | .NodeId => "NodeId"
  | .ExpandedNodeId => "ExpandedNodeId" | .StatusCode => "StatusCode"
  | .QualifiedName => "QualifiedName" | .LocalizedText => "LocalizedText"
  | .ExtensionObject => "ExtensionObject" | .DataValue => "DataValue"
  | .Variant => "Variant" | .DiagnosticInfo => "DiagnosticInfo"

/-- `const types = Object.keys(DataType)` of AtviseFile.js. -/
def typeNames : List String := dataTypesList.map dataTypeName

/-- `const typeExtensions = types.map(t => t.toLowerCase())` of
AtviseFile.js. -/
def typeExtensions : List String := typeNames.map jsToLowerCase

/-- `DataType[types[typeExtensions.indexOf(ext)]]`: the data type whose
lowercase name is the given extension. -/
def dataTypeFromLowercase (ext : String) : Option DataType :=
  match typeExtensions.findIdx? (fun t => t == ext) with
  | some i => dataTypesList[i]?
  | none => none

/-- `DataTypeForExtension` of AtviseFile.js: the reverse of the shortened
extension map (`bool` for Boolean, `xml` for XmlElement). -/
def dataTypeForExtension : String → Option DataType
  | "bool" => some .Boolean
  | "xml" => some .XmlElement
  | _ => none

/-- `extensionForDataType` of AtviseFile.js: the shortened extension when
defined, otherwise the lowercase type name. -/
def extensionForDataType (dt : DataType) : String :=
  match dt with
  | .Boolean => "bool"
  | .XmlElement => "xml"
  | _ => jsToLowerCase (dataTypeName dt)

/-- The value carried by a NodeId: numeric or string identifier (the
`.value` property compared throughout AtviseFile.js). -/
inductive NodeIdValue where
  | num (n : Nat)
  | str (s : String)
deriving DecidableEq, Repr

/-- One entry of the atvise type registry (`Types.js`). -/
structure AtviseType where
  typeDefinition : NodeIdValue
  identifier : String
  dataType : DataType
  fileExtension : Option String
  keepExtension : Bool
deriving DecidableEq, Repr

/-- Modelled from the spec: the registry of well-known extended types
(`src/lib/server/Types.js` is not part of the provided sources).  The spec
names display documents, script code and quick-bindings as the well-known
extended types (§3, §4.6), and AtviseFile.js refers to their type
definitions `VariableTypes.ATVISE.Display`, `VariableTypes.ATVISE.ScriptCode`
and `VariableTypes.ATVISE.QuickDynamic` and to their fixed XML data type. -/
def AtviseTypes : List AtviseType :=
  [⟨.str "VariableTypes.ATVISE.Display", "display", .XmlElement, none, false⟩,
   ⟨.str "VariableTypes.ATVISE.ScriptCode", "script", .XmlElement, none, false⟩,
   ⟨.str "VariableTypes.ATVISE.QuickDynamic", "qd", .XmlElement, none, false⟩]

/-! ## JavaScript values -/

/-- The JavaScript values flowing through the value codec: `null`, primitive
values, `Date`s (epoch milliseconds), the two-component 64-bit integer
arrays, byte buffers, and node-opcua `NodeId` objects (carried as their
canonical string form). -/
inductive JsValue where
  | null
  | bool (b : Bool)
  | str (s : String)
  | num (n : Int)
  | date (ms : Int)
  | arr (xs : List Nat)
  | buffer (bytes : String)
  | nodeIdVal (s : String)
deriving DecidableEq, Repr

/-- JavaScript `toString` on the values above; `none` models a result that
is not shallowly embeddable (`Date.prototype.toString` is locale- and
timezone-dependent; it is never reached by the verified code paths, which
route `DateTime` values through their dedicated encoder). -/
def jsToString : JsValue → Option String
  | .null => none
  | .bool b => some (if b then "true" else "false")
  | .str s => some s
  | .num n => some (intToDecimal n)
  | .date _ => none
  | .arr xs => some (String.intercalate "," (xs.map natToDecimal))
  | .buffer b => some b
  | .nodeIdVal s => some s

/-- A node-opcua variant as read from the server: the inner value plus its
`$dataType` and `$arrayType` tags. -/
structure Variant where
  value : JsValue
  dataType : DataType
  arrayType : VariantArrayType
deriving DecidableEq, Repr

/-- The `typeDefinition`-carrying reference description of a read result. -/
structure RefDescription where
  typeDefinition : NodeIdValue
deriving DecidableEq, Repr

/-- A `ReadStream.ReadResult`: node id (string form), optional variant,
reference description and optional modification time. -/
structure ReadResult where
  nodeId : String
  value : Option Variant
  referenceDescription : RefDescription
  mtime : Option Int
deriving DecidableEq, Repr

/-- Modelled from the spec: `NodeId#filePath` (`src/lib/server/NodeId.js` is
not part of the provided sources). §4.1: identifier components map to
filesystem path segments by a deterministic, reversible rule; for the string
node ids in the verified scenarios the separators (dots) become slashes. -/
def nodeIdFilePath (s : String) : String :=
  String.mk (s.data.map (fun c => if c = '.' then '/' else c))

/-- Modelled from the spec: `NodeId.fromFilePath` (`src/lib/server/NodeId.js`
is not part of the provided sources), the inverse of `nodeIdFilePath`:
slashes become dots. -/
def nodeIdFromFilePath (p : String) : String :=
  String.mk (p.data.map (fun c => if c = '/' then '.' else c))

/-- Modelled external call: node-opcua `resolveNodeId`, which parses a node
id string.  It is kept abstract as the identity embedding into the NodeId
value constructor; no verified claim depends on its internals. -/
def resolveNodeId (s : String) : Option JsValue :=
  some (.nodeIdVal s)

/-! ## Value encoding and decoding (AtviseFile.js lines 91-109, 181-209) -/

/-- `JSON.stringify` as applied by the 64-bit integer encoders: the values
are two-component nonnegative integer arrays (or plain numbers); other
shapes are outside the verified scope. -/
def jsonStringifyValue : JsValue → Option String
  | .arr xs => some (jsonStringifyNats xs)
  | .num n => some (intToDecimal n)
  | _ => none

/-- The `Encoder` map of AtviseFile.js: per-data-type value encoders;
`none` at a data type means no encoder is registered there.  An inner
`none` models a thrown `TypeError` (for instance `getTime` on a value that
is not a `Date`). -/
def Encoder : DataType → Option (JsValue → Option String)
  | .DateTime => some fun v =>
      match v with
      | .date ms => some (intToDecimal ms)
      | _ => none
  | .UInt64 => some jsonStringifyValue
  | .Int64 => some jsonStringifyValue
  | .ByteString => some fun v =>
      match v with
      | .buffer b => some b
      | .str s => some s
      | _ => none
  | _ => none

/-- The `Decoder` map of AtviseFile.js: per-data-type decoders from stored
string content; `none` at a data type means no decoder is registered.  An
inner `none` models a thrown parse error (or an invalid `Date`). -/
def Decoder : DataType → Option (String → Option JsValue)
  | .Boolean => some fun s => some (.bool (s == "true"))
  | .String => some fun s => some (.str s)
  | .NodeId => some resolveNodeId
  | .DateTime => some fun s => (jsParseInt s).map JsValue.date
  | .UInt64 => some fun s => (jsonParseNats s).map JsValue.arr
  | .Int64 => some fun s => (jsonParseNats s).map JsValue.arr
  | _ => none

/-- `AtviseFile.encodeValue` (lines 181-188): a `null` value encodes to
empty contents; otherwise the registered encoder is used, and in its
absence the trimmed `toString` of the value.  `none` models a thrown
error. -/
def encodeValue (value : Variant) (dataType : DataType) : Option String :=
  if value.value = .null then some ""
  else
    match Encoder dataType with
    | some enc => enc value.value
    | none => (jsToString value.value).map jsTrim

/-- `AtviseFile.decodeValue` (lines 197-209): `null` or empty contents
decode to the `null` value; otherwise the registered decoder is used, and
in its absence the raw contents are returned unchanged. -/
def decodeValue (contents : Option String) (dataType : DataType) : Option JsValue :=
  match contents with
  | none => some .null
  | some b =>
    if b.data.isEmpty then some .null
    else
      match Decoder dataType with
      | some dec => dec b
      | none => some (.buffer b)

/-- Encode then decode a value at a data type (the round-trip of §8 of the
spec). -/
def roundTrip (v : JsValue) (dt : DataType) : Option JsValue :=
  (encodeValue ⟨v, dt, .Scalar⟩ dt).bind (fun b => decodeValue (some b) dt)

/-- The value shapes on which the registered codecs are mutually inverse:
the `null` value at every tag; Boolean values; String values that are
nonempty and fixed by trimming; DateTime timestamps; the 64-bit integer
component arrays; nonempty ByteString buffers (used to state the amended
round-trip property). -/
def canonicalValue (v : JsValue) (dt : DataType) : Bool :=
  match v, dt with
  | .null, _ => true
  | .bool _, .Boolean => true
  | .str s, .String => decide (jsTrim s = s) && decide (s ≠ "")
  | .date _, .DateTime => true
  | .arr _, .Int64 => true
  | .arr _, .UInt64 => true
  | .buffer b, .ByteString => decide (b ≠ "")
  | _, _ => false

/-- Zero the millisecond component of an epoch-millisecond timestamp
(the effect of `date.setMilliseconds(0)`). -/
def setMillisecondsZero (t : Int) : Int :=
  t - t % 1000

/-- `AtviseFile.normalizeMtime` (lines 217-222), with the `Date` heap made
explicit: `date` objects live in a store indexed by references; the
function aliases the argument (`const result = date`), zeroes the
millisecond component in place and returns the same reference. -/
def normalizeMtime (store : Nat → Int) (ref : Nat) : Nat × (Nat → Int) :=
  (ref, fun i => if i = ref then setMillisecondsZero (store ref) else store i)

/-! ## Storage paths (AtviseFile.pathForReadResult, lines 136-173) -/

/-- `AtviseFile.pathForReadResult`: the storage path for a read result.
`none` models the `TypeError` of reading `$dataType` off an absent value
(the caller checks for the value first). -/
def pathForReadResult (r : ReadResult) : Option String :=
  match r.value with
  | none => none
  | some v =>
    let base := nodeIdFilePath r.nodeId
    let td := r.referenceDescription.typeDefinition
    let p :=
      if td = NodeIdValue.num 62 then
        base ++ "." ++ extensionForDataType v.dataType
      else if td = NodeIdValue.num 68 then
        base ++ ".prop." ++ extensionForDataType v.dataType
      else
        let tOpt := AtviseTypes.find? (fun t => t.typeDefinition == td)
        let identifier := (tOpt.map AtviseType.identifier).getD "var"
        let fileExt := tOpt.bind AtviseType.fileExtension
        let keepExt := (tOpt.map AtviseType.keepExtension).getD false
        if keepExt then base
        else base ++ "." ++ identifier ++ "." ++ (fileExt.getD (extensionForDataType v.dataType))
    let p :=
      if v.arrayType = VariantArrayType.Scalar then p
      else if v.arrayType = VariantArrayType.Array then p ++ ".array" else p ++ ".matrix"
    some p

/-! ## The path builder in suffix form -/

/-- The extension suffix `pathForReadResult` appends after the NodeId file
path, as one function of the read result's data type, array type and type
definition (used to state the path round-trip). -/
def pathSuffix (dt : DataType) (aty : VariantArrayType) (td : NodeIdValue) : String :=
  let s :=
    if td = NodeIdValue.num 62 then "." ++ extensionForDataType dt
    else if td = NodeIdValue.num 68 then ".prop." ++ extensionForDataType dt
    else
      let tOpt := AtviseTypes.find? (fun t => t.typeDefinition == td)
      let identifier := (tOpt.map AtviseType.identifier).getD "var"
      let fileExt := tOpt.bind AtviseType.fileExtension
      let keepExt := (tOpt.map AtviseType.keepExtension).getD false
      if keepExt then ""
      else "." ++ identifier ++ "." ++ (fileExt.getD (extensionForDataType dt))
  if aty = VariantArrayType.Scalar then s
  else if aty = VariantArrayType.Array then s ++ ".array" else s ++ ".matrix"

/-! ## Metadata inference (AtviseFile#_getMetadata, lines 248-329)

The imperative pop-based inference is embedded as a chain of stage
functions over the extension token list; `getMetadata` assembles them
exactly in source order. -/

/-- The cached metadata triple an `AtviseFile` resolves to. -/
structure Metadata where
  dataType : DataType
  arrayType : VariantArrayType
  typeDefinition : NodeIdValue
deriving DecidableEq, Repr

/-- `ifLastExtensionMatches`: pop the last token when it satisfies the
predicate (no-op on an empty list, as `matches(undefined)` is false for
every predicate used). -/
def popIf (p : String → Bool) (exts : List String) : Option String × List String :=
  match exts.getLast? with
  | some e => if p e then (some e, exts.dropLast) else (none, exts)
  | none => (none, exts)

/-- The `array`/`matrix` steps (lines 277-283): consume trailing `array`
and then `matrix` tokens, defaulting to `Scalar`. -/
def consumeArrayMatrix (exts : List String) : VariantArrayType × List String :=
  let s1 := popIf (fun e => e == "array") exts
  let a1 := if (s1.1).isSome then VariantArrayType.Array else VariantArrayType.Scalar
  let s2 := popIf (fun e => e == "matrix") s1.2
  let a2 := if (s2.1).isSome then VariantArrayType.Matrix else a1
  (a2, s2.2)

/-- The data-type steps (lines 285-296): consume a trailing lowercase full
type name, then a trailing shortened alias (`bool`, `xml`). -/
def consumeDataType (exts : List String) : Option DataType × List String :=
  let s1 := popIf (fun e => (dataTypeFromLowercase e).isSome) exts
  let d1 := (s1.1).bind dataTypeFromLowercase
  let s2 := popIf (fun e => (dataTypeForExtension e).isSome) s1.2
  let d2 :=
    match (s2.1).bind dataTypeForExtension with
    | some d => some d
    | none => d1
  (d2, s2.2)

/-- Lines 298-328 after token extraction: variable default, `prop` handling,
registry scan and final resolution state `(arrayType, dataType?,
typeDefinition?)`. -/
def metaResolve (exts : List String) : VariantArrayType × Option DataType × Option NodeIdValue :=
  let s1 := consumeArrayMatrix exts
  let s2 := consumeDataType s1.2
  let tdVar : Option NodeIdValue := if (s2.2).isEmpty then some (.num 62) else none
  let s3 := popIf (fun e => e == "prop") s2.2
  let td := if (s3.1).isSome then some (NodeIdValue.num 68) else tdVar
  let r :=
    if (s2.1).isSome && td.isSome then (s2.1, td)
    else
      match AtviseTypes.find? (fun t => (s3.2).contains t.identifier) with
      | some t => (some t.dataType, some t.typeDefinition)
      | none => (s2.1, td)
  (s1.1, r.1, r.2)

/-- The final fallback (lines 325-328): when the resolution state is not
complete, both the data type and the type definition are overwritten with
the generic octet-stream resource. -/
def metaCore (exts : List String) : Metadata :=
  match metaResolve exts with
  | (a, some dt, some td) => ⟨dt, a, td⟩
  | (a, _, _) => ⟨.ByteString, a, .str "VariableTypes.ATVISE.Resource.OctetStream"⟩

/-- The extension tokens of a relative path: the `\.([^/\\]*)$` match on
the last path segment, split on dots (lines 256-260). -/
def extensionsOf (relative : String) : List String :=
  match afterFirstChar '.' (lastSegAfterChar '/' relative.data) with
  | some t => (splitOnChar '.' t).map String.mk
  | none => []

/-- The full token list including the split-file directory extension
(lines 262-266): when the dirname contains a dot, its part after the last
dot is prepended. -/
def metaExtensions (dirname relative : String) : List String :=
  let base := extensionsOf relative
  let dirParts := splitOnChar '.' dirname.data
  if dirParts.length > 1 then String.mk (dirParts.getLastD []) :: base else base

/-- `AtviseFile#_getMetadata`: the metadata triple inferred from a file's
dirname and relative path. -/
def getMetadata (dirname relative : String) : Metadata :=
  metaCore (metaExtensions dirname relative)

/-! ## AtviseFile construction and getters (lines 229-242, 395-425) -/

/-- The relevant state of an `AtviseFile`: path, contents and the cached
metadata written by `fromReadResult`. -/
structure AtviseFileRec where
  path : String
  contents : Option String
  dataTypeCache : Option DataType
  arrayTypeCache : Option VariantArrayType
  typeDefinitionCache : Option NodeIdValue
  mtime : Option Int
deriving DecidableEq, Repr

/-- `AtviseFile.fromReadResult` (lines 229-242): throws (`none`) when the
read result has no value; otherwise builds the file from the derived path,
the encoded contents, the cached metadata and the normalized mtime.  An
encoding error (inner `none` of `encodeValue`) also propagates as a thrown
error. -/
def fromReadResult (r : ReadResult) : Option AtviseFileRec :=
  match r.value with
  | none => none
  | some v =>
    match pathForReadResult r, encodeValue v v.dataType with
    | some p, some c =>
      some ⟨p, some c, some v.dataType, some v.arrayType,
            some r.referenceDescription.typeDefinition, r.mtime.map setMillisecondsZero⟩
    | _, _ => none

/-- The `value` getter (lines 407-409) for a file freshly read from disk
(empty metadata caches): decode the contents at the inferred data type. -/
def fileValue (dirname relative : String) (contents : Option String) : Option JsValue :=
  decodeValue contents (getMetadata dirname relative).dataType

/-- The `nodeId` getter (lines 415-425) for a file freshly read from disk:
unless the resolved type keeps its extension, strip everything from the
first dot of the extension match, then parse the node id from the path.
`none` models the `TypeError` on a path with no extension match. -/
def fileNodeId (dirname relative : String) : Option String :=
  let td := (getMetadata dirname relative).typeDefinition
  let atType := AtviseTypes.find? (fun t => t.typeDefinition == td)
  let strip :=
    match atType with
    | some t => !t.keepExtension
    | none => true
  if strip then
    match afterFirstChar '.' (lastSegAfterChar '/' relative.data) with
    | some exts =>
      some (nodeIdFromFilePath (String.mk (splitHeadChars ('.' :: exts) relative.data)))
    | none => none
  else some (nodeIdFromFilePath relative)

/-! ## Watch coordination (push.js WatchTask#handleServerChange,
lines 210-238) -/

/-- The mutable state of the watch task. -/
structure WatchState where
  pulling : Bool
  pushing : Bool
  lastPull : Int
  lastPushed : Option String
deriving DecidableEq, Repr

/-- `WatchTask#handleServerChange`, run to completion: returns whether a
pull was triggered and the final state.  While pushing, the event is
ignored; while not pushing, an event whose node id differs from the last
pushed node triggers a pull (updating `lastPull` from the event's
normalized mtime); an event matching the last pushed node only clears that
record. -/
def handleServerChange (s : WatchState) (nodeId : String) (mtime : Int) : Bool × WatchState :=
  if s.pushing then (false, s)
  else if some nodeId ≠ s.lastPushed then
    (true, { s with pulling := false, lastPull := setMillisecondsZero mtime })
  else
    (false, { s with lastPushed := none })

/-! ## Transform pipeline (Transformer.applyTransformers) -/

/-- The transform direction enumeration (`FromDB` is the remote-to-
filesystem direction). -/
inductive TransformDirection where
  | FromDB
  | FromFilesystem
deriving DecidableEq, Repr

/-- Modelled from the spec: a pipeline stage (`src/lib/transform/
Transformer.js` is not part of the provided sources, only its test suite);
§4.4: a transformer is polymorphic over the capability set
\x7btransform-from-remote, transform-from-filesystem\x7d, modelled as its two
per-direction file transforms. -/
structure TransformerM where
  transformFromDB : AtviseFileRec → AtviseFileRec
  transformFromFilesystem : AtviseFileRec → AtviseFileRec

/-- A transformer bound to a direction (`withDirection`): the per-direction
transform it will apply. -/
def boundTransform (t : TransformerM) (d : TransformDirection) : AtviseFileRec → AtviseFileRec :=
  match d with
  | .FromDB => t.transformFromDB
  | .FromFilesystem => t.transformFromFilesystem

/-- Modelled from the spec: the processing function of
`Transformer.applyTransformers(transformers, direction)` (§4.4 and the
test suite): zero transformers yield an identity pass-through; otherwise
the transformers are chained in configured order, each bound to the
direction, with the configured order reversed first when the direction is
`FromFilesystem`. -/
def applyTransformers (ts : List TransformerM) (d : TransformDirection) :
    AtviseFileRec → AtviseFileRec :=
  let ordered :=
    match d with
    | .FromDB => ts
    | .FromFilesystem => ts.reverse
  ordered.foldl (fun acc t => fun f => boundTransform t d (acc f)) id

/-! ## Supporting lemmas: decimal printing and parsing -/

theorem natDigitsRev_lt10 (n : Nat) : ∀ d ∈ natDigitsRev n, d < 10 := by
  induction n using natDigitsRev.induct with
  | case1 n h =>
    rw [natDigitsRev, dif_pos h]
    intro d hd
    simp at hd
    omega
  | case2 n h ih =>
    rw [natDigitsRev, dif_neg h]
    intro d hd
    rcases List.mem_cons.mp hd with h1 | h1
    · omega
    · exact ih d h1

theorem natDigitsRev_ne_nil (n : Nat) : natDigitsRev n ≠ [] := by
  rw [natDigitsRev]
  split <;> simp

theorem digitsToNat_snoc (ds : List Nat) (d : Nat) :
    digitsToNat (ds ++ [d]) = 10 * digitsToNat ds + d := by
  simp [digitsToNat, List.foldl_append]
  omega

theorem digitsToNat_natDigitsRev (n : Nat) :
    digitsToNat (natDigitsRev n).reverse = n := by
  induction n using natDigitsRev.induct with
  | case1 n h =>
    rw [natDigitsRev, dif_pos h]
    simp [digitsToNat]
  | case2 n h ih =>
    rw [natDigitsRev, dif_neg h]
    rw [List.reverse_cons, digitsToNat_snoc, ih]
    omega

theorem digitVal_digitChar (d : Nat) (h : d < 10) : digitVal (digitChar d) = some d := by
  interval_cases d <;> decide

theorem digitChar_not_ws (d : Nat) (h : d < 10) : jsIsWhitespace (digitChar d) = false := by
  interval_cases d <;> decide

theorem digitChar_ne_dash (d : Nat) (h : d < 10) : (digitChar d == '-') = false := by
  interval_cases d <;> decide

theorem digitChar_ne_plus (d : Nat) (h : d < 10) : (digitChar d == '+') = false := by
  interval_cases d <;> decide

theorem takeDigits_digits (ds : List Nat) (h : ∀ d ∈ ds, d < 10) (rest : List Char)
    (hr : ∀ c, rest.head? = some c → digitVal c = none) :
    takeDigits (ds.map digitChar ++ rest) = (ds, rest) := by
  induction ds with
  | nil =>
    simp only [List.map_nil, List.nil_append]
    cases rest with
    | nil => rfl
    | cons c cs => simp [takeDigits, hr c rfl]
  | cons d ds ih =>
    have hd : d < 10 := h d (List.mem_cons_self d ds)
    have ih2 := ih (fun x hx => h x (List.mem_cons_of_mem d hx))
    simp only [List.map_cons, List.cons_append, takeDigits,
      digitVal_digitChar d hd, List.append_eq, ih2]

theorem jsParseIntCore_digits (ds : List Nat) (h : ∀ d ∈ ds, d < 10) (hne : ds ≠ [])
    (neg : Bool) :
    jsParseIntCore (ds.map digitChar) neg
      = some (if neg then -(digitsToNat ds : Int) else (digitsToNat ds : Int)) := by
  have hdig : takeDigits (ds.map digitChar ++ []) = (ds, []) :=
    takeDigits_digits ds h [] (by intro c hc; simp at hc)
  rw [List.append_nil] at hdig
  rw [jsParseIntCore, hdig]
  cases ds with
  | nil => exact absurd rfl hne
  | cons d ds => rfl

theorem dropWhile_ws_digits (ds : List Nat) (h : ∀ d ∈ ds, d < 10) (hne : ds ≠ []) :
    (ds.map digitChar).dropWhile jsIsWhitespace = ds.map digitChar := by
  cases ds with
  | nil => exact absurd rfl hne
  | cons d ds =>
    have hd : d < 10 := h d (List.mem_cons_self d ds)
    simp [List.dropWhile_cons, digitChar_not_ws d hd]

theorem jsParseInt_natToDecimal (n : Nat) : jsParseInt (natToDecimal n) = some (n : Int) := by
  have hds : ∀ d ∈ (natDigitsRev n).reverse, d < 10 :=
    fun d hd => natDigitsRev_lt10 n d (List.mem_reverse.mp hd)
  have hne : (natDigitsRev n).reverse ≠ [] := by simp [natDigitsRev_ne_nil]
  rw [natToDecimal, jsParseInt]
  rw [show (String.mk ((natDigitsRev n).reverse.map digitChar)).data
      = (natDigitsRev n).reverse.map digitChar from rfl]
  rw [dropWhile_ws_digits _ hds hne]
  cases hc : (natDigitsRev n).reverse with
  | nil => exact absurd hc hne
  | cons d ds =>
    have hd : d < 10 := hds d (hc ▸ List.mem_cons_self d ds)
    have h1 : digitChar d ≠ '-' := by interval_cases d <;> decide
    have h2 : digitChar d ≠ '+' := by interval_cases d <;> decide
    rw [List.map_cons]
    split
    · next heq =>
      rw [List.cons.injEq] at heq
      exact absurd heq.1 h1
    · next heq =>
      rw [List.cons.injEq] at heq
      exact absurd heq.1 h2
    · rw [← List.map_cons, ← hc, jsParseIntCore_digits _ hds hne false,
        digitsToNat_natDigitsRev]
      simp

theorem jsParseInt_intToDecimal (i : Int) : jsParseInt (intToDecimal i) = some i := by
  by_cases hneg : i < 0
  · have hds : ∀ d ∈ (natDigitsRev i.natAbs).reverse, d < 10 :=
      fun d hd => natDigitsRev_lt10 _ d (List.mem_reverse.mp hd)
    have hne : (natDigitsRev i.natAbs).reverse ≠ [] := by simp [natDigitsRev_ne_nil]
    rw [intToDecimal, if_pos hneg]
    have hstep : jsParseInt ("-" ++ natToDecimal i.natAbs)
        = jsParseIntCore ((natDigitsRev i.natAbs).reverse.map digitChar) true := rfl
    rw [hstep, jsParseIntCore_digits _ hds hne true, digitsToNat_natDigitsRev]
    simp only [if_true, Option.some.injEq]
    omega
  · rw [intToDecimal, if_neg hneg, jsParseInt_natToDecimal]
    simp only [Option.some.injEq]
    omega

theorem parseItems_close (ds : List Nat) (hds : ∀ d ∈ ds, d < 10) (hne : ds ≠ []) :
    parseItems (ds.map digitChar ++ [']']) = some [digitsToNat ds] := by
  have htake : takeDigits (ds.map digitChar ++ [']']) = (ds, [']']) :=
    takeDigits_digits ds hds [']'] (by intro c hc; simp at hc; subst hc; decide)
  rw [parseItems.eq_def]
  split
  · next heq =>
    rw [htake] at heq
    obtain ⟨h1, h2⟩ := Prod.mk.injEq .. ▸ heq
    exact absurd h1 hne
  · next d2 ds2 r2 heq =>
    rw [htake] at heq
    obtain ⟨h1, h2⟩ := Prod.mk.injEq .. ▸ heq
    cases h1
    cases h2
    rfl

theorem parseItems_comma (ds : List Nat) (hds : ∀ d ∈ ds, d < 10) (hne : ds ≠ [])
    (r2 : List Char) :
    parseItems (ds.map digitChar ++ ',' :: r2)
      = (parseItems r2).map (fun xs => digitsToNat ds :: xs) := by
  have htake : takeDigits (ds.map digitChar ++ ',' :: r2) = (ds, ',' :: r2) :=
    takeDigits_digits ds hds (',' :: r2) (by intro c hc; simp at hc; subst hc; decide)
  rw [parseItems.eq_def]
  split
  · next heq =>
    rw [htake] at heq
    obtain ⟨h1, h2⟩ := Prod.mk.injEq .. ▸ heq
    exact absurd h1 hne
  · next d2 ds2 r3 heq =>
    rw [htake] at heq
    obtain ⟨h1, h2⟩ := Prod.mk.injEq .. ▸ heq
    cases h1
    cases h2
    rfl

theorem parseItems_inner : ∀ (xs : List Nat) (x : Nat),
    parseItems (jsonInner (x :: xs) ++ [']']) = some (x :: xs) := by
  intro xs
  induction xs with
  | nil =>
    intro x
    rw [show jsonInner [x] = (natDigitsRev x).reverse.map digitChar from rfl]
    rw [parseItems_close _ (fun d hd => natDigitsRev_lt10 x d (List.mem_reverse.mp hd))
      (by simp [natDigitsRev_ne_nil])]
    rw [digitsToNat_natDigitsRev]
  | cons y ys ih =>
    intro x
    rw [show jsonInner (x :: y :: ys)
        = (natDigitsRev x).reverse.map digitChar ++ ',' :: jsonInner (y :: ys) from rfl]
    rw [List.append_assoc, List.cons_append]
    rw [parseItems_comma _ (fun d hd => natDigitsRev_lt10 x d (List.mem_reverse.mp hd))
      (by simp [natDigitsRev_ne_nil]) _]
    rw [ih y, digitsToNat_natDigitsRev]
    rfl

theorem jsonInner_head (x : Nat) (xs : List Nat) :
    ∃ d rest, d < 10 ∧ jsonInner (x :: xs) = digitChar d :: rest := by
  have hne := natDigitsRev_ne_nil x
  have hlt := natDigitsRev_lt10 x
  cases hc : (natDigitsRev x).reverse with
  | nil => exact absurd (by simpa using congrArg List.reverse hc) hne
  | cons d ds =>
    have hd : d < 10 := hlt d (List.mem_reverse.mp (hc ▸ List.mem_cons_self d ds))
    cases xs with
    | nil => exact ⟨d, ds.map digitChar, hd, by rw [show jsonInner [x]
        = (natDigitsRev x).reverse.map digitChar from rfl, hc, List.map_cons]⟩
    | cons y ys =>
      exact ⟨d, ds.map digitChar ++ ',' :: jsonInner (y :: ys), hd, by
        rw [show jsonInner (x :: y :: ys)
          = (natDigitsRev x).reverse.map digitChar ++ ',' :: jsonInner (y :: ys) from rfl,
          hc, List.map_cons, List.cons_append]⟩

theorem jsonParseNats_stringify (xs : List Nat) :
    jsonParseNats (jsonStringifyNats xs) = some xs := by
  cases xs with
  | nil => rfl
  | cons x xs =>
    obtain ⟨d, rest, hd, hinner⟩ := jsonInner_head x xs
    have hdata : (jsonStringifyNats (x :: xs)).data
        = '[' :: (jsonInner (x :: xs) ++ [']']) := rfl
    rw [jsonParseNats, hdata]
    show (match jsonInner (x :: xs) ++ [']'] with
          | [']'] => some []
          | r2 => parseItems r2) = some (x :: xs)
    rw [hinner, List.cons_append]
    split
    · next heq =>
      rw [List.cons.injEq] at heq
      have h2 : digitChar d ≠ ']' := by interval_cases d <;> decide
      exact absurd heq.1 h2
    · rw [← List.cons_append, ← hinner]
      exact parseItems_inner xs x

theorem natToDecimal_data_ne_nil (n : Nat) : (natToDecimal n).data ≠ [] := by
  simp [natToDecimal, natDigitsRev_ne_nil]

theorem intToDecimal_data_ne_nil (i : Int) : (intToDecimal i).data ≠ [] := by
  rw [intToDecimal]
  split
  · rw [show ("-" ++ natToDecimal i.natAbs).data
      = '-' :: (natToDecimal i.natAbs).data from rfl]
    simp
  · exact natToDecimal_data_ne_nil _

/-! ## Supporting lemmas: path splitting -/

theorem splitOnChar_not_mem (c : Char) (l : List Char) (h : c ∉ l) :
    splitOnChar c l = [l] := by
  induction l with
  | nil => rfl
  | cons x xs ih =>
    have hx : x ≠ c := fun he => h (he ▸ List.mem_cons_self x xs)
    have hxs : c ∉ xs := fun hm => h (List.mem_cons_of_mem x hm)
    simp only [splitOnChar]
    rw [ih hxs]
    simp [hx]

theorem lastSegAfterChar_append (c : Char) (b s : List Char) (hs : c ∉ s) :
    lastSegAfterChar c (b ++ s) = lastSegAfterChar c b ++ s := by
  have hall : ∀ a ∈ s.reverse, (a != c) = true := by
    intro a ha
    rw [List.mem_reverse] at ha
    simp only [bne_iff_ne, ne_eq]
    exact fun he => hs (he ▸ ha)
  rw [lastSegAfterChar, List.reverse_append, List.takeWhile_append_of_pos hall,
    List.reverse_append, List.reverse_reverse, lastSegAfterChar]

theorem lastSegAfterChar_subset (c : Char) (l : List Char) :
    ∀ x ∈ lastSegAfterChar c l, x ∈ l := by
  intro x hx
  rw [lastSegAfterChar, List.mem_reverse] at hx
  exact List.mem_reverse.mp (List.takeWhile_subset _ hx)

theorem afterFirstChar_append (c : Char) (a r : List Char) (ha : c ∉ a) :
    afterFirstChar c (a ++ c :: r) = some r := by
  induction a with
  | nil => simp [afterFirstChar]
  | cons x a ih =>
    have hx : x ≠ c := fun he => ha (he ▸ List.mem_cons_self x a)
    have ha2 : c ∉ a := fun hm => ha (List.mem_cons_of_mem x hm)
    simp only [List.cons_append, afterFirstChar, if_neg hx]
    exact ih ha2

theorem beforeLastSlash_append (b s : List Char) (hs : '/' ∉ s) :
    beforeLastSlash (b ++ s) = beforeLastSlash b := by
  have hall : ∀ a ∈ s.reverse, (a != '/') = true := by
    intro a ha
    rw [List.mem_reverse] at ha
    simp only [bne_iff_ne, ne_eq]
    exact fun he => hs (he ▸ ha)
  rw [beforeLastSlash, List.reverse_append, List.dropWhile_append_of_pos hall,
    beforeLastSlash]

theorem beforeLastSlash_subset (l : List Char) :
    ∀ x ∈ beforeLastSlash l, x ∈ l := by
  intro x hx
  rw [beforeLastSlash, List.mem_reverse] at hx
  have h1 := List.mem_of_mem_tail hx
  exact List.mem_reverse.mp (List.dropWhile_subset _ h1)

theorem getMetadata_shape (base suffix : String) (rest : List Char)
    (hb : '.' ∉ base.data) (hsl : '/' ∈ base.data)
    (hsfx : suffix.data = '.' :: rest) (hr : '/' ∉ rest) :
    getMetadata (dirnameOf (base ++ suffix)) (base ++ suffix)
      = metaCore ((splitOnChar '.' rest).map String.mk) := by
  have hdata : (base ++ suffix).data = base.data ++ '.' :: rest := by
    rw [String.data_append, hsfx]
  have hslp : '/' ∈ (base ++ suffix).data := by
    rw [hdata]
    exact List.mem_append.mpr (Or.inl hsl)
  have hnos : '/' ∉ ('.' :: rest) := by
    intro hm
    rcases List.mem_cons.mp hm with h1 | h1
    · exact absurd h1 (by decide)
    · exact hr h1
  have hdir : dirnameOf (base ++ suffix) = String.mk (beforeLastSlash base.data) := by
    rw [dirnameOf, if_pos hslp, hdata, beforeLastSlash_append _ _ hnos]
  have hdirdot : '.' ∉ (String.mk (beforeLastSlash base.data)).data :=
    fun hm => hb (beforeLastSlash_subset _ _ hm)
  have hsegdot : '.' ∉ lastSegAfterChar '/' base.data :=
    fun hm => hb (lastSegAfterChar_subset _ _ _ hm)
  have hext : extensionsOf (base ++ suffix) = (splitOnChar '.' rest).map String.mk := by
    rw [extensionsOf, hdata, lastSegAfterChar_append _ _ _ hnos,
      afterFirstChar_append _ _ _ hsegdot]
  rw [getMetadata, metaExtensions, hdir, hext]
  rw [splitOnChar_not_mem _ _ hdirdot]
  simp

theorem pathForReadResult_eq (n : String) (v : JsValue) (dt : DataType)
    (aty : VariantArrayType) (td : NodeIdValue) (m : Option Int) :
    pathForReadResult ⟨n, some ⟨v, dt, aty⟩, ⟨td⟩, m⟩
      = some (nodeIdFilePath n ++ pathSuffix dt aty td) := by
  simp only [pathForReadResult, pathSuffix]
  refine congrArg some (String.ext ?_)
  split_ifs <;>
    cases hfind : AtviseTypes.find? (fun t => t.typeDefinition == td) <;>
    simp [String.data_append, List.append_assoc]

/-! ## Round-trip lemmas per data type -/

theorem roundTrip_null (dt : DataType) : roundTrip .null dt = some .null := rfl

theorem roundTrip_bool (b : Bool) : roundTrip (.bool b) .Boolean = some (.bool b) := by
  cases b <;> rfl

theorem decodeValue_some_dec (b : String) (hne : b.data ≠ []) (dt : DataType) :
    decodeValue (some b) dt
      = match Decoder dt with
        | some dec => dec b
        | none => some (.buffer b) := by
  show (if b.data.isEmpty = true then some JsValue.null
        else match Decoder dt with
          | some dec => dec b
          | none => some (JsValue.buffer b))
      = match Decoder dt with
        | some dec => dec b
        | none => some (.buffer b)
  rw [if_neg]
  cases hb : b.data with
  | nil => exact absurd hb hne
  | cons c cs => simp [hb]

theorem roundTrip_str (s : String) (h1 : jsTrim s = s) (h2 : s ≠ "") :
    roundTrip (.str s) .String = some (.str s) := by
  have hd : s.data ≠ [] := fun hd => h2 (String.ext hd)
  show decodeValue (some (jsTrim s)) .String = some (.str s)
  rw [h1, decodeValue_some_dec s hd .String]
  rfl

theorem roundTrip_date (ms : Int) : roundTrip (.date ms) .DateTime = some (.date ms) := by
  show decodeValue (some (intToDecimal ms)) .DateTime = some (.date ms)
  rw [decodeValue_some_dec _ (intToDecimal_data_ne_nil ms) .DateTime]
  show (jsParseInt (intToDecimal ms)).map JsValue.date = some (.date ms)
  rw [jsParseInt_intToDecimal]
  rfl

theorem jsonStringifyNats_data_ne_nil (xs : List Nat) :
    (jsonStringifyNats xs).data ≠ [] := by
  rw [show (jsonStringifyNats xs).data = '[' :: (jsonInner xs ++ [']']) from rfl]
  simp

theorem decodeValue_json64 (xs : List Nat) (dt : DataType)
    (hdec : Decoder dt = some (fun s => (jsonParseNats s).map JsValue.arr)) :
    decodeValue (some (jsonStringifyNats xs)) dt = some (.arr xs) := by
  rw [decodeValue_some_dec _ (jsonStringifyNats_data_ne_nil xs) dt, hdec]
  show (jsonParseNats (jsonStringifyNats xs)).map JsValue.arr = some (.arr xs)
  rw [jsonParseNats_stringify]
  rfl

theorem roundTrip_int64 (xs : List Nat) : roundTrip (.arr xs) .Int64 = some (.arr xs) := by
  show decodeValue (some (jsonStringifyNats xs)) .Int64 = some (.arr xs)
  exact decodeValue_json64 xs .Int64 rfl

theorem roundTrip_uint64 (xs : List Nat) : roundTrip (.arr xs) .UInt64 = some (.arr xs) := by
  show decodeValue (some (jsonStringifyNats xs)) .UInt64 = some (.arr xs)
  exact decodeValue_json64 xs .UInt64 rfl

theorem roundTrip_buffer (b : String) (h : b ≠ "") :
    roundTrip (.buffer b) .ByteString = some (.buffer b) := by
  have hd : b.data ≠ [] := fun hd => h (String.ext hd)
  show decodeValue (some b) .ByteString = some (.buffer b)
  rw [decodeValue_some_dec b hd .ByteString]
  rfl

/-! ## Claim C1: value encode/decode round-trip -/

/-- C1 (counterexample): the round-trip does not recover every value of a
supported data type: the String value `" a "` encodes to its trimmed form
and decodes to `"a"`. -/
theorem c1_roundtrip_counterexample :
    roundTrip (.str " a ") .String = some (.str "a")
    ∧ roundTrip (.str " a ") .String ≠ some (.str " a ") := by
  constructor
  · decide
  · decide

/-- C1 (amended): decoding the encoded contents recovers the value for the
data types with mutually inverse codecs and values in canonical shape
(`canonicalValue`): the null value at every tag, Booleans, trimmed nonempty
Strings, DateTime timestamps, 64-bit integer component arrays and nonempty
ByteString buffers; in particular a null value encodes to zero-length
contents and decodes back to null.  Tags without a registered decoder
(the numeric scalar classes among others) instead decode to the raw byte
content, and String values are recovered only up to trimming. -/
theorem c1_roundtrip_amended (v : JsValue) (dt : DataType)
    (h : canonicalValue v dt = true) : roundTrip v dt = some v := by
  cases v with
  | null => exact roundTrip_null dt
  | bool b =>
    cases dt <;> first
      | exact roundTrip_bool b
      | simp [canonicalValue] at h
  | str s =>
    cases dt <;> first
      | (simp only [canonicalValue, Bool.and_eq_true, decide_eq_true_eq] at h
         exact roundTrip_str s h.1 h.2)
      | simp [canonicalValue] at h
  | num n => cases dt <;> simp [canonicalValue] at h
  | date ms =>
    cases dt <;> first
      | exact roundTrip_date ms
      | simp [canonicalValue] at h
  | arr xs =>
    cases dt <;> first
      | exact roundTrip_int64 xs
      | exact roundTrip_uint64 xs
      | simp [canonicalValue] at h
  | buffer b =>
    cases dt <;> first
      | (simp only [canonicalValue, decide_eq_true_eq] at h
         exact roundTrip_buffer b h)
      | simp [canonicalValue] at h
  | nodeIdVal s => cases dt <;> simp [canonicalValue] at h

/-- C1 (witness): the amended round-trip at the Boolean value `true`. -/
theorem c1_roundtrip_amended_witness :
    canonicalValue (.bool true) .Boolean = true
    ∧ roundTrip (.bool true) .Boolean = some (.bool true) :=
  ⟨by decide, c1_roundtrip_amended (.bool true) .Boolean (by decide)⟩

/-! ## Claim C9: decoding absent contents -/

/-- C9: for every data type, `decodeValue` of absent (`null`) contents is
the null value, exactly as for zero-length contents. -/
theorem c9_decode_absent_contents (dt : DataType) :
    decodeValue none dt = some JsValue.null
    ∧ decodeValue (some "") dt = some JsValue.null :=
  ⟨rfl, rfl⟩

/-! ## Claim C10: normalizeMtime -/

/-- C10: `normalizeMtime` returns its argument reference (mutation in
place, not a fresh copy), the stored timestamp has its millisecond
component zeroed with all coarser components unchanged, and every other
date in the store is untouched. -/
theorem c10_normalizeMtime (store : Nat → Int) (ref : Nat) :
    (normalizeMtime store ref).1 = ref
    ∧ ((normalizeMtime store ref).2 ref) % 1000 = 0
    ∧ ((normalizeMtime store ref).2 ref) / 1000 = (store ref) / 1000
    ∧ ∀ j, j ≠ ref → (normalizeMtime store ref).2 j = store j := by
  have hself : (normalizeMtime store ref).2 ref = setMillisecondsZero (store ref) := by
    simp [normalizeMtime]
  refine ⟨rfl, ?_, ?_, ?_⟩
  · rw [hself, setMillisecondsZero]
    omega
  · rw [hself, setMillisecondsZero]
    omega
  · intro j hj
    simp only [normalizeMtime]
    rw [if_neg hj]

/-- C10 (witness): the store-update facts at a concrete store. -/
theorem c10_normalizeMtime_witness :
    ((normalizeMtime (fun _ => (1234567 : Int)) 0).2 0 = 1234000)
    ∧ ((normalizeMtime (fun _ => (1234567 : Int)) 0).2 1 = 1234567) := by
  have h2 := (c10_normalizeMtime (fun _ => (1234567 : Int)) 0).2.1
  have h3 := (c10_normalizeMtime (fun _ => (1234567 : Int)) 0).2.2.1
  have h4 := (c10_normalizeMtime (fun _ => (1234567 : Int)) 0).2.2.2 1 (by decide)
  have h3b : ((normalizeMtime (fun _ => (1234567 : Int)) 0).2 0) / 1000 = 1234 := by
    rw [h3]
    decide
  refine ⟨?_, h4⟩
  omega

/-! ## Claim C4: watch echo suppression -/

/-- C4: after a push records node `N` as last pushed, the first remote
change for `N` while not pushing triggers no pull and clears the record;
a second remote change for `N` triggers a pull. -/
theorem c4_echo_suppression (s : WatchState) (n : String) (t1 t2 : Int)
    (hpush : s.pushing = false) (hlast : s.lastPushed = some n) :
    (handleServerChange s n t1).1 = false
    ∧ (handleServerChange s n t1).2.lastPushed = none
    ∧ (handleServerChange (handleServerChange s n t1).2 n t2).1 = true := by
  simp [handleServerChange, hpush, hlast]

/-- C4 (witness): the suppression sequence at a concrete state. -/
theorem c4_echo_suppression_witness :
    ((handleServerChange ⟨false, false, 0, some "N"⟩ "N" 5000).1 = false)
    ∧ ((handleServerChange
        (handleServerChange ⟨false, false, 0, some "N"⟩ "N" 5000).2 "N" 6000).1 = true) := by
  have h := c4_echo_suppression ⟨false, false, 0, some "N"⟩ "N" 5000 6000 rfl rfl
  exact ⟨h.1, h.2.2⟩

/-! ## Claim C5: pipeline composition -/

/-- C5: composing zero transformers yields an identity pass-through;
composing `[A, B]` processes A then B in the `FromDB` (remote-to-
filesystem) direction and B then A in the `FromFilesystem` direction,
every stage bound to the given direction. -/
theorem c5_pipeline_composition (tA tB : TransformerM) (f : AtviseFileRec) :
    applyTransformers [] .FromDB f = f
    ∧ applyTransformers [] .FromFilesystem f = f
    ∧ applyTransformers [tA, tB] .FromDB f
        = boundTransform tB .FromDB (boundTransform tA .FromDB f)
    ∧ applyTransformers [tA, tB] .FromFilesystem f
        = boundTransform tA .FromFilesystem (boundTransform tB .FromFilesystem f) :=
  ⟨rfl, rfl, rfl, rfl⟩

/-! ## Claim C6: Boolean scalar mapping scenario -/

/-- C6: the read result for the Boolean scalar variable node
`AGENT.DISPLAYS.Main` with value `false` maps to the path
`AGENT/DISPLAYS/Main.bool` with contents `false`; conversely the file at
that path with contents `true` yields the value `true`, the data type
Boolean and the node id `AGENT.DISPLAYS.Main`. -/
theorem c6_boolean_scenario :
    pathForReadResult
      ⟨"AGENT.DISPLAYS.Main", some ⟨.bool false, .Boolean, .Scalar⟩, ⟨.num 62⟩, none⟩
      = some "AGENT/DISPLAYS/Main.bool"
    ∧ encodeValue ⟨.bool false, .Boolean, .Scalar⟩ .Boolean = some "false"
    ∧ fileValue (dirnameOf "AGENT/DISPLAYS/Main.bool") "AGENT/DISPLAYS/Main.bool"
        (some "true") = some (.bool true)
    ∧ (getMetadata (dirnameOf "AGENT/DISPLAYS/Main.bool")
        "AGENT/DISPLAYS/Main.bool").dataType = .Boolean
    ∧ fileNodeId (dirnameOf "AGENT/DISPLAYS/Main.bool") "AGENT/DISPLAYS/Main.bool"
        = some "AGENT.DISPLAYS.Main" := by
  refine ⟨?_, ?_, ?_, ?_, ?_⟩ <;> decide

/-! ## Claim C7: empty token list and the Variable type definition -/

/-- C7 (counterexample): for the extensionless path `AGENT/Main` the token
list is empty after the array/matrix and data-type consumption steps, yet
the inferred type definition is the octet-stream resource, not the plain
Variable type definition: the transient Variable assignment is overwritten
by the final fallback because no data type was resolved. -/
theorem c7_counterexample :
    (consumeDataType (consumeArrayMatrix
        (metaExtensions (dirnameOf "AGENT/Main") "AGENT/Main")).2).2 = []
    ∧ (getMetadata (dirnameOf "AGENT/Main") "AGENT/Main").typeDefinition
        = .str "VariableTypes.ATVISE.Resource.OctetStream"
    ∧ (getMetadata (dirnameOf "AGENT/Main") "AGENT/Main").typeDefinition
        ≠ .num 62 := by
  refine ⟨?_, ?_, ?_⟩ <;> decide

/-- C7 (amended): when the token list is empty after the array/matrix and
data-type consumption steps and a data type was resolved by those steps,
the inferred type definition is the plain Variable type definition
(numeric 62); a path with no extension at all instead falls through to the
octet-stream fallback. -/
theorem c7_variable_typedef (dirname relative : String)
    (h1 : (consumeDataType (consumeArrayMatrix
        (metaExtensions dirname relative)).2).2 = [])
    (h2 : (consumeDataType (consumeArrayMatrix
        (metaExtensions dirname relative)).2).1.isSome = true) :
    (getMetadata dirname relative).typeDefinition = .num 62 := by
  obtain ⟨dt, hdt⟩ := Option.isSome_iff_exists.mp h2
  simp only [getMetadata, metaCore, metaResolve, h1, hdt]
  simp [popIf]

/-- C7 (witness): the amended statement at the path `AGENT/Main.bool`. -/
theorem c7_variable_typedef_witness :
    (getMetadata (dirnameOf "AGENT/Main.bool") "AGENT/Main.bool").typeDefinition
      = .num 62 :=
  c7_variable_typedef (dirnameOf "AGENT/Main.bool") "AGENT/Main.bool"
    (by decide) (by decide)

/-! ## Claim C3: totality and the octet-stream fallback -/

/-- C3: extension inference is a total function of the path (the embedding
`getMetadata` is a plain Lean function, so every string resolves to exactly
one triple and no exception is possible), and whenever the resolution state
is incomplete after all consumption steps and the registry scan, the result
falls back to the ByteString data type and the generic octet-stream
resource type definition. -/
theorem c3_inference_total_fallback (dirname relative : String)
    (h : (metaResolve (metaExtensions dirname relative)).2.1 = none
       ∨ (metaResolve (metaExtensions dirname relative)).2.2 = none) :
    getMetadata dirname relative
      = ⟨.ByteString, (metaResolve (metaExtensions dirname relative)).1,
         .str "VariableTypes.ATVISE.Resource.OctetStream"⟩ := by
  rw [getMetadata, metaCore]
  rcases hres : metaResolve (metaExtensions dirname relative) with ⟨a, d, t⟩
  rw [hres] at h
  cases d <;> cases t <;> simp_all

/-- C3 (witness): the fallback at the extensionless path `Main`. -/
theorem c3_inference_total_fallback_witness :
    getMetadata "" "Main"
      = ⟨.ByteString, (metaResolve (metaExtensions "" "Main")).1,
         .str "VariableTypes.ATVISE.Resource.OctetStream"⟩ :=
  c3_inference_total_fallback "" "Main" (Or.inl (by decide))

/-! ## Claim C8: fromReadResult failure condition -/

/-- C8 (counterexample): the construction does not fail only on a missing
value: a read result that carries a value of the wrong shape for its data
type (here a Boolean value tagged DateTime, whose encoder calls `getTime`
on a non-Date) also fails. -/
theorem c8_counterexample :
    (⟨"A.B", some ⟨.bool true, .DateTime, .Scalar⟩, ⟨.num 62⟩, none⟩
        : ReadResult).value ≠ none
    ∧ fromReadResult ⟨"A.B", some ⟨.bool true, .DateTime, .Scalar⟩, ⟨.num 62⟩, none⟩
        = none := by
  refine ⟨?_, ?_⟩ <;> decide

/-- C8 (amended): creating a file from a read result succeeds exactly when
the read result carries a value that its data type's encoder accepts (it
throws `UnreadableValueError` on a missing value, and an encoding error
also propagates); on success the file has the derived path, the encoded
contents, the cached metadata and the normalized mtime. -/
theorem c8_fromReadResult (r : ReadResult) :
    ((fromReadResult r).isSome = true
      ↔ ∃ v, r.value = some v ∧ (encodeValue v v.dataType).isSome = true)
    ∧ (∀ v f, r.value = some v → fromReadResult r = some f →
        pathForReadResult r = some f.path
        ∧ encodeValue v v.dataType = f.contents
        ∧ f.dataTypeCache = some v.dataType
        ∧ f.arrayTypeCache = some v.arrayType
        ∧ f.typeDefinitionCache = some r.referenceDescription.typeDefinition
        ∧ f.mtime = r.mtime.map setMillisecondsZero) := by
  rcases r with ⟨n, val, ⟨td⟩, m⟩
  cases val with
  | none =>
    constructor
    · simp [fromReadResult]
    · intro v f hv
      exact absurd hv (by simp)
  | some v =>
    rcases v with ⟨vv, dt, aty⟩
    have hpath := pathForReadResult_eq n vv dt aty td m
    constructor
    · rw [show (⟨n, some ⟨vv, dt, aty⟩, ⟨td⟩, m⟩ : ReadResult).value
          = some ⟨vv, dt, aty⟩ from rfl]
      cases henc : encodeValue ⟨vv, dt, aty⟩ dt with
      | none =>
        simp only [fromReadResult, hpath]
        rw [henc]
        simp
        exact henc
      | some c =>
        simp only [fromReadResult, hpath]
        rw [henc]
        simp [henc]
    · intro v2 f hv2 hf
      rw [Option.some.injEq] at hv2
      subst hv2
      rw [fromReadResult] at hf
      simp only [hpath] at hf
      cases henc : encodeValue ⟨vv, dt, aty⟩ dt with
      | none =>
        rw [henc] at hf
        exact absurd hf (by simp)
      | some c =>
        rw [henc] at hf
        rw [Option.some.injEq] at hf
        subst hf
        refine ⟨hpath, ?_, rfl, rfl, rfl, rfl⟩
        simp [henc]

/-- C8 (witness): the amended statement evaluated on a well-typed Boolean
read result. -/
theorem c8_fromReadResult_witness :
    pathForReadResult
      ⟨"A.B", some ⟨.bool true, .Boolean, .Scalar⟩, ⟨.num 62⟩, none⟩
      = some "A/B.bool" :=
  ((c8_fromReadResult
      ⟨"A.B", some ⟨.bool true, .Boolean, .Scalar⟩, ⟨.num 62⟩, none⟩).2
    ⟨.bool true, .Boolean, .Scalar⟩
    ⟨"A/B.bool", some "true", some .Boolean, some .Scalar, some (.num 62), none⟩
    rfl (by decide)).1

/-! ## Claim C2: path round-trip -/

theorem getMetadata_suffix (base suffix : String)
    (hb : '.' ∉ base.data) (hsl : '/' ∈ base.data)
    (hhead : suffix.data.head? = some '.') (hr : '/' ∉ suffix.data.tail) :
    getMetadata (dirnameOf (base ++ suffix)) (base ++ suffix)
      = metaCore ((splitOnChar '.' suffix.data.tail).map String.mk) := by
  cases hsd : suffix.data with
  | nil =>
    rw [hsd] at hhead
    simp at hhead
  | cons c t =>
    rw [hsd] at hhead hr
    simp only [List.head?_cons, Option.some.injEq] at hhead
    subst hhead
    simp only [List.tail_cons] at hr
    rw [List.tail_cons]
    exact getMetadata_shape base suffix t hb hsl hsd hr

/-- C2 (counterexample): the path round-trip fails for a custom type
definition outside the registry: the read result for node `AGENT.X` with
data type Float and the unrecognized type definition `1234` is stored at
`AGENT/X.var.float`, from which inference recovers the ByteString fallback
and the octet-stream resource type definition instead of the original
data type and type definition. -/
theorem c2_counterexample :
    pathForReadResult ⟨"AGENT.X", some ⟨.num 1, .Float, .Scalar⟩, ⟨.num 1234⟩, none⟩
      = some "AGENT/X.var.float"
    ∧ getMetadata (dirnameOf "AGENT/X.var.float") "AGENT/X.var.float"
      = ⟨.ByteString, .Scalar, .str "VariableTypes.ATVISE.Resource.OctetStream"⟩
    ∧ (DataType.ByteString ≠ DataType.Float
        ∧ NodeIdValue.str "VariableTypes.ATVISE.Resource.OctetStream"
            ≠ NodeIdValue.num 1234) := by
  refine ⟨?_, ?_, ?_⟩ <;> decide

/-- C2 (amended): building the storage path and running extension
inference on it recovers the original data type, arrayness and type
definition whenever the node id contains a dot (so its file path is
nested) and the type definition is Variable, Property, or a registry
extended type whose declared data type matches the read data type (and
which does not keep a native extension); it fails for unrecognized custom
type definitions, for registry types read with a mismatched data type,
and for root-level node paths. -/
theorem c2_path_roundtrip (n : String) (v : JsValue) (dt : DataType)
    (aty : VariantArrayType) (td : NodeIdValue) (m : Option Int)
    (hn : '.' ∈ n.data)
    (htd : td = .num 62 ∨ td = .num 68
      ∨ ∃ t, t ∈ AtviseTypes ∧ td = t.typeDefinition ∧ dt = t.dataType
        ∧ t.keepExtension = false) :
    ∃ p, pathForReadResult ⟨n, some ⟨v, dt, aty⟩, ⟨td⟩, m⟩ = some p
      ∧ getMetadata (dirnameOf p) p = ⟨dt, aty, td⟩ := by
  have hb : '.' ∉ (nodeIdFilePath n).data := by
    show '.' ∉ n.data.map (fun c => if c = '.' then '/' else c)
    intro hm
    rw [List.mem_map] at hm
    obtain ⟨c, hc, he⟩ := hm
    by_cases h : c = '.'
    · rw [if_pos h] at he
      exact absurd he (by decide)
    · rw [if_neg h] at he
      exact h he
  have hsl : '/' ∈ (nodeIdFilePath n).data := by
    show '/' ∈ n.data.map (fun c => if c = '.' then '/' else c)
    exact List.mem_map.mpr ⟨'.', hn, by decide⟩
  refine ⟨nodeIdFilePath n ++ pathSuffix dt aty td,
    pathForReadResult_eq n v dt aty td m, ?_⟩
  rcases htd with h | h | ⟨t, ht, h1, h2, h3⟩
  · subst h
    cases dt <;> cases aty <;>
      refine ((getMetadata_suffix _ _ hb hsl ?_ ?_).trans ?_) <;> decide
  · subst h
    cases dt <;> cases aty <;>
      refine ((getMetadata_suffix _ _ hb hsl ?_ ?_).trans ?_) <;> decide
  · have ht2 : t = (⟨.str "VariableTypes.ATVISE.Display", "display", .XmlElement, none, false⟩
        : AtviseType)
      ∨ t = ⟨.str "VariableTypes.ATVISE.ScriptCode", "script", .XmlElement, none, false⟩
      ∨ t = ⟨.str "VariableTypes.ATVISE.QuickDynamic", "qd", .XmlElement, none, false⟩ := by
      simpa [AtviseTypes] using ht
    subst h1
    subst h2
    rcases ht2 with h | h | h <;> subst h <;> cases aty <;>
      refine ((getMetadata_suffix _ _ hb hsl ?_ ?_).trans ?_) <;> decide

/-- C2 (witness): the amended round-trip at the Boolean array variable
`AGENT.DISPLAYS.Main`. -/
theorem c2_path_roundtrip_witness :
    ∃ p, pathForReadResult
        ⟨"AGENT.DISPLAYS.Main", some ⟨.bool false, .Boolean, .Array⟩, ⟨.num 62⟩, none⟩
        = some p
      ∧ getMetadata (dirnameOf p) p = ⟨.Boolean, .Array, .num 62⟩ :=
  c2_path_roundtrip "AGENT.DISPLAYS.Main" (.bool false) .Boolean .Array (.num 62) none
    (by decide) (Or.inl rfl)

end Atscm
